import Mathlib

/-!
Verification development for the textual bytecode assembler
(`ddtrace/internal/assembly.py`).  The Python module is shallowly embedded:
pure string manipulation becomes Lean functions on `String`/`List Char`,
the mutable `Assembly` builder becomes explicit state passing over the
`Assembly` structure, raised `ValueError`s become `Except String`, and
Python `Label` objects (compared by identity) become arena handles (`Nat`)
allocated from a fresh counter, as identity is exactly handle equality.
Host-runtime data (the `sys.version_info` gates and the `dis.opmap`
instruction table) is injected as an explicit `PyCtx` configuration.
-/

namespace DDAsm

/-- ASCII whitespace characters removed by Python `str.strip` and `str.split`. -/
def isPySpace (c : Char) : Bool :=
  c = ' ' || c = '\t' || c = '\n' || c = '\r' || c = '\x0b' || c = '\x0c'

def pyStripList (cs : List Char) : List Char :=
  ((cs.dropWhile isPySpace).reverse.dropWhile isPySpace).reverse

/-- Python `str.strip()`. -/
def pyStrip (s : String) : String := String.mk (pyStripList s.toList)

/-- Python `str.startswith(c)` for a one-character head. -/
def pyStartsWith (s : String) (c : Char) : Bool := s.toList.head? = some c

/-- Python `str.endswith(c)` for a one-character tail. -/
def pyEndsWith (s : String) (c : Char) : Bool := s.toList.getLast? = some c

/-- Python `s[1:]`. -/
def pyDrop1 (s : String) : String := String.mk s.toList.tail

/-- Python `s[:-1]`. -/
def pyDropRight1 (s : String) : String := String.mk s.toList.dropLast

/-- Python `s[1:-1]`. -/
def pyDropEnds (s : String) : String := String.mk s.toList.tail.dropLast

/-- Python `str.upper()` (opcodes are ASCII). -/
def pyUpper (s : String) : String := String.mk (s.toList.map Char.toUpper)

def isIdentStart (c : Char) : Bool := c.isAlpha || c = '_'

def isIdentChar (c : Char) : Bool := c.isAlphanum || c = '_'

/-- Python `str.isidentifier`, restricted to ASCII as the module's grammar
(`ident ::= [a-zA-Z_][a-zA-Z0-9_]*`) prescribes. -/
def pyIsIdentifier (s : String) : Bool :=
  match s.toList with
  | [] => false
  | c :: cs => isIdentStart c && cs.all isIdentChar

/-- Worker for `pySplit`; `fuel` only guarantees structural termination and is
always at least the length of the character list. -/
def pySplitGo (fuel : Nat) (cs : List Char) (ms : Nat) : List String :=
  match fuel, cs with
  | _, [] => []
  | 0, rest => [String.mk rest]
  | fuel + 1, c :: cs =>
    if isPySpace c then pySplitGo fuel cs ms
    else
      match ms with
      | 0 => [String.mk (c :: cs)]
      | ms + 1 =>
        String.mk ((c :: cs).takeWhile (fun x => !isPySpace x)) ::
          pySplitGo fuel ((c :: cs).dropWhile (fun x => !isPySpace x)) ms

/-- Python `str.split(maxsplit=ms)` with no separator argument: split on runs
of whitespace, discarding leading/trailing whitespace, keeping the remainder
verbatim once `ms` splits have been made. -/
def pySplit (s : String) (ms : Nat) : List String := pySplitGo s.toList.length s.toList ms

def splitLinesGo : List Char → List Char → List String
  | [], acc => [String.mk acc.reverse]
  | c :: cs, acc =>
    if c = '\n' then String.mk acc.reverse :: splitLinesGo cs []
    else splitLinesGo cs (c :: acc)

/-- Python `str.splitlines`, modelled for LF newlines (a CR is left on the
line and removed by the subsequent `strip`). -/
def pySplitlines (s : String) : List String := splitLinesGo s.toList []

/-- Python `sep.join(items)`. -/
def joinWith (sep : String) : List String → String
  | [] => ""
  | [s] => s
  | s :: rest => s ++ sep ++ joinWith sep rest

/-- Value of a base-10 digit string. -/
def digitsVal (cs : List Char) : Nat :=
  cs.foldl (fun a c => 10 * a + (c.toNat - 48)) 0

def pyIntDigits (cs : List Char) : Option Nat :=
  if cs = [] then none
  else if cs.all Char.isDigit then some (digitsVal cs) else none

/-- Python `int(text)` on a decimal string: surrounding whitespace, an
optional sign, then digits (underscore separators and non-ASCII digits are
not modelled). -/
def pyInt (s : String) : Option Int :=
  match pyStripList s.toList with
  | [] => none
  | c :: cs =>
    if c = '-' then (pyIntDigits cs).map (fun n => -(n : Int))
    else if c = '+' then (pyIntDigits cs).map (fun n => (n : Int))
    else (pyIntDigits (c :: cs)).map (fun n => (n : Int))


/-- Python `str(int)`. -/
def intStr : Int → String
  | Int.ofNat m => Nat.repr m
  | Int.negSucc m => "-" ++ Nat.repr (m + 1)

/-- Operand of an instruction.  `lbl` is a label handle, `pair` is the tagged
tuple produced by `transform_instruction`, and `expr` stands opaquely for the
host value produced by the embedded-expression fallback (`eval`), identified
by its source token. -/
inductive Arg where
  | unset : Arg
  | lbl : Nat → Arg
  | str : String → Arg
  | int : Int → Arg
  | pair : Bool → Arg → Arg
  | expr : String → Arg
deriving DecidableEq, Repr

def Arg.isPair : Arg → Bool
  | Arg.pair _ _ => true
  | _ => false

/-- The payload of a `BindOpArg` placeholder: recorded opcode, placeholder
identifier, and default line number. -/
structure BindData where
  name : String
  arg : String
  lineno : Option Nat
deriving DecidableEq, Repr

/-- One entry of the parsed sequence (`bc.Instr`, `bc.Label`, `bc.TryBegin`,
`bc.TryEnd`, or a `BindOpArg` placeholder).  A `tryEnd` carries the data of
the `tryBegin` it closes (Python stores a reference to that object). -/
inductive Entry where
  | instr : String → Arg → Option Nat → Entry
  | lbl : Nat → Entry
  | tryBegin : Nat → Bool → Entry
  | tryEnd : Nat → Bool → Entry
  | bindOpArg : BindData → Entry
deriving DecidableEq, Repr

/-- Target-runtime configuration: the `sys.version_info` gates and the host
instruction table `dis.opmap`, injected as explicit parameters. -/
structure PyCtx where
  ge311 : Bool
  ge312 : Bool
  opmap : String → Bool

/-- The `Assembly` builder state.  `fresh` is the arena counter from which
label handles are allocated. -/
structure Assembly where
  labels : List (String × Nat)
  refLabels : List (String × Nat)
  tb : Option (Nat × Bool)
  instrs : List Entry
  name : String
  filename : String
  lineno : Option Nat
  bindOpargs : List (Nat × BindData)
  fresh : Nat
deriving DecidableEq, Repr

/-- Model of `Assembly.__init__`; the `__file__` default is a host value, modelled by a
fixed stand-in name. -/
def Assembly.init (name : Option String) (filename : Option String) (lineno : Option Nat) :
    Assembly :=
  { labels := []
    refLabels := []
    tb := none
    instrs := []
    name := name.getD "<assembly>"
    filename := filename.getD "<assembly.py>"
    lineno := lineno
    bindOpargs := []
    fresh := 0 }

def asmEmpty : Assembly := Assembly.init none none none

/-- Model of `relocate`: copy the sequence, overwriting every `Instr`'s line number;
non-`Instr` entries (including `BindOpArg`, which is not a `bc.Instr`) are
kept as they are. -/
def relocate (instrs : List Entry) (lineno : Nat) : List Entry :=
  instrs.map fun e =>
    match e with
    | Entry.instr n a _ => Entry.instr n a (some lineno)
    | other => other

/-- Model of `transform_instruction`: on 3.12+, the `LOAD_METHOD` pseudo-instruction
becomes `LOAD_ATTR` with a `(True, arg)` tuple, and a `LOAD_ATTR` whose
operand is not already a tuple gets `(False, arg)`. -/
def transform_instruction (ge312 : Bool) (opcode : String) (arg : Arg) : String × Arg :=
  if ge312 then
    if pyUpper opcode = "LOAD_METHOD" then ("LOAD_ATTR", Arg.pair true arg)
    else if pyUpper opcode = "LOAD_ATTR" ∧ arg.isPair = false then (opcode, Arg.pair false arg)
    else (opcode, arg)
  else (opcode, arg)

/-- Model of `BindOpArg.__call__`: resolve the placeholder to a concrete instruction,
with no version transform applied.  The `bind_args` mapping is modelled as a
total function from placeholder identifier to operand value. -/
def BindData.call (d : BindData) (bindArgs : String → Arg) (lineno : Option Nat) : Entry :=
  Entry.instr d.name (bindArgs d.arg)
    (match lineno with
     | some l => some l
     | none => d.lineno)

/-- Model of `parse_ident`. -/
def parse_ident (text : String) : Except String String :=
  if pyIsIdentifier text then Except.ok text
  else Except.error ("invalid identifier " ++ text)

/-- Model of `parse_number`. -/
def parse_number (text : String) : Option Int := pyInt text

/-- Model of `parse_label`.  On success returns the defined label's handle and the
updated state; `none` when the line has no trailing colon.  A pending
(forward-referenced) label is promoted (`_ref_labels.pop`), otherwise a fresh
label is allocated. -/
def Assembly.parse_label (st : Assembly) (line : String) :
    Except String (Option (Nat × Assembly)) :=
  if pyEndsWith line ':' = false then Except.ok none
  else do
    let ident ← parse_ident (pyDropRight1 line)
    if (st.labels.lookup ident).isSome then
      Except.error ("label " ++ ident ++ " already defined")
    else
      match st.refLabels.lookup ident with
      | some l =>
        Except.ok (some (l,
          { st with labels := st.labels ++ [(ident, l)],
                    refLabels := st.refLabels.filter (fun p => p.1 != ident) }))
      | none =>
        Except.ok (some (st.fresh,
          { st with labels := st.labels ++ [(ident, st.fresh)], fresh := st.fresh + 1 }))

/-- Model of `parse_label_ref`: a defined label, else an existing pending label, else a
freshly registered pending label. -/
def Assembly.parse_label_ref (st : Assembly) (text : String) :
    Except String (Option (Nat × Assembly)) :=
  if pyStartsWith text '@' = false then Except.ok none
  else do
    let ident ← parse_ident (pyDrop1 text)
    match st.labels.lookup ident with
    | some l => Except.ok (some (l, st))
    | none =>
      match st.refLabels.lookup ident with
      | some l => Except.ok (some (l, st))
      | none =>
        Except.ok (some (st.fresh,
          { st with refLabels := st.refLabels ++ [(ident, st.fresh)], fresh := st.fresh + 1 }))

/-- Model of `parse_string_ref`. -/
def parse_string_ref (text : String) : Except String (Option String) :=
  if pyStartsWith text '$' = false then Except.ok none
  else do
    let i ← parse_ident (pyDrop1 text)
    Except.ok (some i)

/-- Model of `parse_try_begin` (defined only on 3.11+, gated in `parse_line`).  The
`head, label_ref, *lasti` unpacking returns `None` when the line has fewer
than two tokens. -/
def Assembly.parse_try_begin (st : Assembly) (line : String) :
    Except String (Option (Entry × Assembly)) :=
  match pySplit line 2 with
  | head :: labelRef :: lasti =>
    if head ≠ "try" then Except.ok none
    else if st.tb.isSome then Except.error "cannot start try block while another is open"
    else do
      match ← st.parse_label_ref labelRef with
      | none => Except.error "invalid label reference for try block"
      | some (l, st') =>
        Except.ok (some (Entry.tryBegin l (!lasti.isEmpty),
          { st' with tb := some (l, !lasti.isEmpty) }))
  | _ => Except.ok none

/-- Model of `parse_try_end`. -/
def Assembly.parse_try_end (st : Assembly) (line : String) :
    Except String (Option (Entry × Assembly)) :=
  if line ≠ "tried" then Except.ok none
  else
    match st.tb with
    | none => Except.error "cannot end try block while none is open"
    | some (t, p) => Except.ok (some (Entry.tryEnd t p, { st with tb := none }))

/-- Model of `parse_opcode`: uppercase, then validate against the target runtime's
instruction table. -/
def parse_opcode (ctx : PyCtx) (text : String) : Except String String :=
  let opcode := pyUpper text
  if ctx.opmap opcode then Except.ok opcode
  else Except.error ("unknown opcode " ++ opcode)

/-- Model of `parse_expr`: `eval` of the token in the caller's frame; the resulting
host value is modelled opaquely by the token itself. -/
def parse_expr (text : String) : Arg := Arg.expr text

/-- Model of `parse_opcode_arg`: the Python `or`-chain
`label_ref or string_ref or number or expr`, with Python truthiness — a
`0` integer result is falsy and falls through to the expression fallback
(an empty string result would likewise fall through to the number step). -/
def Assembly.parse_opcode_arg (st : Assembly) (text : String) :
    Except String (Arg × Assembly) :=
  if text = "" then Except.ok (Arg.unset, st)
  else do
    let numberOrExpr : Except String (Arg × Assembly) :=
      match parse_number text with
      | some n => if n = 0 then Except.ok (parse_expr text, st) else Except.ok (Arg.int n, st)
      | none => Except.ok (parse_expr text, st)
    match ← st.parse_label_ref text with
    | some (l, st') => Except.ok (Arg.lbl l, st')
    | none =>
      match ← parse_string_ref text with
      | some s => if s = "" then numberOrExpr else Except.ok (Arg.str s, st)
      | none => numberOrExpr

/-- Model of `parse_bind_opcode_arg`. -/
def parse_bind_opcode_arg (text : String) : Option String :=
  if pyStartsWith text '\x7b' && pyEndsWith text '\x7d' then some (pyDropEnds text)
  else none

/-- Model of `parse_instruction`: a `{name}` operand yields a `BindOpArg` placeholder
(no transform); otherwise the version transform is applied to the parsed
opcode and operand before the `Instr` is built. -/
def Assembly.parse_instruction (st : Assembly) (ctx : PyCtx) (line : String) :
    Except String (Entry × Assembly) :=
  match pySplit line 1 with
  | [] => Except.error "not enough values to unpack"
  | opcode :: args =>
    match args with
    | arg :: _ =>
      match parse_bind_opcode_arg arg with
      | some bindArg => do
        let op ← parse_opcode ctx opcode
        Except.ok (Entry.bindOpArg ⟨op, bindArg, st.lineno⟩, st)
      | none => do
        let op ← parse_opcode ctx opcode
        let r ← st.parse_opcode_arg arg
        let t := transform_instruction ctx.ge312 op r.1
        Except.ok (Entry.instr t.1 t.2 st.lineno, r.2)
    | [] => do
      let op ← parse_opcode ctx opcode
      let r ← st.parse_opcode_arg ""
      let t := transform_instruction ctx.ge312 op r.1
      Except.ok (Entry.instr t.1 t.2 st.lineno, r.2)

/-- Model of `parse_line`: label, then (on 3.11+) try-begin and try-end, then
instruction; the first applicable production wins. -/
def Assembly.parse_line (st : Assembly) (ctx : PyCtx) (line : String) :
    Except String (Entry × Assembly) := do
  match ← st.parse_label line with
  | some (l, st') => Except.ok (Entry.lbl l, st')
  | none =>
    if ctx.ge311 then do
      match ← st.parse_try_begin line with
      | some r => Except.ok r
      | none =>
        match ← st.parse_try_end line with
        | some r => Except.ok r
        | none => st.parse_instruction ctx line
    else st.parse_instruction ctx line

/-- The loop body of `parse`: strip each line, skip blanks and comments,
append the parsed entry, and record the sequence position of a `BindOpArg`
before the append. -/
def Assembly.parse_lines (ctx : PyCtx) : Assembly → List String → Except String Assembly
  | st, [] => Except.ok st
  | st, line :: rest => do
    let l := pyStrip line
    if l = "" ∨ pyStartsWith l '#' = true then Assembly.parse_lines ctx st rest
    else do
      let r ← st.parse_line ctx l
      let st'' :=
        { r.2 with instrs := r.2.instrs ++ [r.1],
                   bindOpargs :=
                     match r.1 with
                     | Entry.bindOpArg d => r.2.bindOpargs ++ [(r.2.instrs.length, d)]
                     | _ => r.2.bindOpargs }
      Assembly.parse_lines ctx st'' rest

/-- Model of `_validate`: fail when any referenced label is still undefined, listing
the pending identifiers in insertion order. -/
def Assembly._validate (st : Assembly) : Except String Unit :=
  if st.refLabels.isEmpty then Except.ok ()
  else Except.error ("undefined labels: " ++ joinWith ", " (st.refLabels.map Prod.fst))

/-- Model of `parse`: process every line, then validate pending labels. -/
def Assembly.parse (st : Assembly) (ctx : PyCtx) (asmText : String) :
    Except String Assembly := do
  let st' ← st.parse_lines ctx (pySplitlines asmText)
  let _ ← st'._validate
  Except.ok st'

/-- Model of `bind`: without placeholders return the sequence (relocated when a line
number is given); with placeholders require `bind_args`, substitute each
placeholder at its recorded position in a copy, then optionally relocate. -/
def Assembly.bind (st : Assembly) (bindArgs : Option (String → Arg)) (lineno : Option Nat) :
    Except String (List Entry) :=
  if st.bindOpargs.isEmpty then
    match lineno with
    | some l => Except.ok (relocate st.instrs l)
    | none => Except.ok st.instrs
  else
    match bindArgs with
    | none => Except.error "missing bind arguments"
    | some ba =>
      let instrs := st.bindOpargs.foldl (fun acc pd => acc.set pd.1 (pd.2.call ba lineno)) st.instrs
      match lineno with
      | some l => Except.ok (relocate instrs l)
      | none => Except.ok instrs

/-- Model of `compile`, which calls `bind` and then `to_code()` of the external `bytecode`
library; `to_code` is outside this repository, so the model covers the
in-repository step (no pending-label validation happens in between). -/
def Assembly.compile (st : Assembly) (bindArgs : Option (String → Arg)) (lineno : Option Nat) :
    Except String (List Entry) :=
  st.bind bindArgs lineno

/-- Model of `_label_ident`: the first identifier mapped to this label handle among the
defined labels (`None` models the `StopIteration` of `next`). -/
def Assembly.labelIdent (st : Assembly) (l : Nat) : Option String :=
  (st.labels.find? (fun p => p.2 == l)).map Prod.fst

/-- Python `repr` of an operand, used when a tuple operand is interpolated;
host objects (labels, expression values, the `UNSET` sentinel) are modelled
with opaque stand-in text. -/
def argRepr : Arg → String
  | Arg.unset => "UNSET"
  | Arg.lbl i => "<Label " ++ Nat.repr i ++ ">"
  | Arg.str s => "'" ++ s ++ "'"
  | Arg.int n => intStr n
  | Arg.pair b a => "(" ++ (if b then "True" else "False") ++ ", " ++ argRepr a ++ ")"
  | Arg.expr t => "<expr " ++ t ++ ">"

/-- Python `str()` of an operand as interpolated by `dis`; differs from
`repr` only on strings, which print bare. -/
def argStr : Arg → String
  | Arg.str s => s
  | a => argRepr a

/-- The `:<32` left-justified field of the `dis` f-string. -/
def pad32 (s : String) : String := s ++ String.mk (List.replicate (32 - s.toList.length) ' ')

/-- The lines printed by `dis` for one entry: a `TryEnd` matches no branch of
the `elif` chain and prints nothing; a label (or try target) not among the
defined labels makes `_label_ident` fail. -/
def disEntry (st : Assembly) : Entry → Option (List String)
  | Entry.instr n a _ => some ["    " ++ pad32 n ++ argStr a]
  | Entry.bindOpArg d => some ["    " ++ pad32 d.name ++ "\x7b" ++ d.arg ++ "\x7d"]
  | Entry.lbl i => (st.labelIdent i).map (fun id => [id ++ ":"])
  | Entry.tryBegin t p =>
    (st.labelIdent t).map
      (fun id => ["try @" ++ id ++ " (lasti=" ++ (if p then "True" else "False") ++ ")"])
  | Entry.tryEnd _ _ => some []

/-- Model of `dis`: the printed dump, as its list of output lines. -/
def Assembly.dis (st : Assembly) : Option (List String) :=
  (st.instrs.mapM (disEntry st)).map (fun ls => ls.foldr (fun a b => a ++ b) [])

/-- Checks that `dis` output reparsed through the grammar yields a structurally equal
entry sequence. -/
def disRoundTrip (ctx : PyCtx) (prog : String) : Bool :=
  match asmEmpty.parse ctx prog with
  | Except.error _ => false
  | Except.ok st =>
    match st.dis with
    | none => false
    | some ls =>
      match asmEmpty.parse ctx (joinWith "\n" ls) with
      | Except.error _ => false
      | Except.ok st2 => decide (st2.instrs = st.instrs)

/-- Modelled from the host runtime instruction table (`dis.opmap`, external
to this repository): the fragment of CPython 3.12's table used here.
`LOAD_METHOD` and `JUMP` are pseudo-instructions present in that table. -/
def opmap312 (s : String) : Bool :=
  (["LOAD_ATTR", "LOAD_METHOD", "LOAD_CONST", "LOAD_FAST", "JUMP",
    "RETURN_VALUE", "NOP", "POP_TOP"] : List String).contains s

/-- Modelled from the host runtime instruction table (`dis.opmap`) of a
pre-3.11 CPython: the fragment used here. -/
def opmap310 (s : String) : Bool :=
  (["LOAD_ATTR", "LOAD_METHOD", "LOAD_CONST", "LOAD_FAST",
    "JUMP_ABSOLUTE", "RETURN_VALUE", "NOP", "POP_TOP"] : List String).contains s

def ctx312 : PyCtx := ⟨true, true, opmap312⟩

def ctx310 : PyCtx := ⟨false, false, opmap310⟩

/-- Entries that are neither instructions nor placeholders. -/
def labelOrRegion : Entry → Bool
  | Entry.lbl _ => true
  | Entry.tryBegin _ _ => true
  | Entry.tryEnd _ _ => true
  | _ => false

def entryRecorded (st : Assembly) (i : Nat) : Entry → Bool
  | Entry.bindOpArg d => decide ((i, d) ∈ st.bindOpargs)
  | _ => true

/-- Well-formedness of a builder state, as established by `parse`: recorded
placeholder positions are distinct, each points at its `BindOpArg` entry, and
every `BindOpArg` entry is recorded. -/
def Assembly.WF (st : Assembly) : Prop :=
  (st.bindOpargs.map Prod.fst).Nodup ∧
  (∀ pd ∈ st.bindOpargs, st.instrs[pd.1]? = some (Entry.bindOpArg pd.2)) ∧
  (∀ pe ∈ st.instrs.enum, entryRecorded st pe.1 pe.2 = true)

instance (st : Assembly) : Decidable st.WF := by
  unfold Assembly.WF
  infer_instance

/-- One step of the region-nesting scan: `none` marks a violation of the
depth-at-most-one discipline. -/
def regionStep : Entry → Bool → Option Bool
  | Entry.tryBegin _ _, o => if o then none else some true
  | Entry.tryEnd _ _, o => if o then some false else none
  | _, o => some o

def scanRegions : List Entry → Bool → Option Bool
  | [], o => some o
  | e :: es, o =>
    match regionStep e o with
    | none => none
    | some o' => scanRegions es o'

/-- The region invariant: scanning the entry sequence never opens a second
region or closes a missing one, and ends exactly in the state recorded by the
open-region field. -/
def Assembly.RegionInv (st : Assembly) : Prop :=
  scanRegions st.instrs false = some st.tb.isSome

instance (st : Assembly) : Decidable st.RegionInv := by
  unfold Assembly.RegionInv
  infer_instance

/-! ### Generic lemmas about the embedding's building blocks -/

@[simp]
theorem exceptBind_ok {ε α β : Type} (a : α) (f : α → Except ε β) :
    (Except.ok a >>= f) = f a := rfl

@[simp]
theorem exceptBind_error {ε α β : Type} (e : ε) (f : α → Except ε β) :
    ((Except.error e : Except ε α) >>= f) = Except.error e := rfl

theorem lookup_append_self {α : Type} [BEq α] [LawfulBEq α]
    (xs : List (α × Nat)) (k : α) (v : Nat) (ys : List (α × Nat))
    (h : xs.lookup k = none) : (xs ++ (k, v) :: ys).lookup k = some v := by
  induction xs with
  | nil => simp [List.lookup]
  | cons a xs ih =>
    rw [List.cons_append, List.lookup]
    rw [List.lookup] at h
    cases hk : (k == a.1) with
    | true => rw [hk] at h; cases h
    | false => rw [hk] at h; exact ih h

theorem dropWhile_eq_self_of {cs : List Char}
    (h : ∀ c ∈ cs, isPySpace c = false) : cs.dropWhile isPySpace = cs := by
  cases cs with
  | nil => rfl
  | cons c cs =>
    rw [List.dropWhile_cons, h c (by simp)]
    simp

theorem pyStripList_eq_self {cs : List Char}
    (h : ∀ c ∈ cs, isPySpace c = false) : pyStripList cs = cs := by
  unfold pyStripList
  rw [dropWhile_eq_self_of h, dropWhile_eq_self_of (by simpa using h), List.reverse_reverse]

theorem isDigit_ne {c : Char} (h : c.isDigit = true) (d : Char)
    (hd : d.isDigit = false) : c ≠ d := by
  intro he
  rw [he, hd] at h
  cases h

theorem isDigit_not_pySpace {c : Char} (h : c.isDigit = true) : isPySpace c = false := by
  cases hc : isPySpace c with
  | false => rfl
  | true =>
    exfalso
    simp only [isPySpace, Bool.or_eq_true, decide_eq_true_eq] at hc
    rcases hc with ((((h1 | h1) | h1) | h1) | h1) | h1 <;> subst h1 <;>
      simp [Char.isDigit] at h

/-! ### C4 — version-compatibility transform at construction time -/

/-- C4: on a 3.12 target (where `LOAD_METHOD` is merged into `LOAD_ATTR`),
parsing `LOAD_METHOD $foo` appends the generic mnemonic with tagged operand
`(true, "foo")`, and parsing `LOAD_ATTR $bar` (bare, non-pair operand)
appends `(false, "bar")`; the transform has already been applied when the
instruction entry is appended to the sequence. -/
theorem c4_transform_applied_at_parse (st : Assembly) :
    st.parse_lines ctx312 ["LOAD_METHOD $foo"] =
      Except.ok { st with instrs :=
        st.instrs ++ [Entry.instr "LOAD_ATTR" (Arg.pair true (Arg.str "foo")) st.lineno] } ∧
    st.parse_lines ctx312 ["LOAD_ATTR $bar"] =
      Except.ok { st with instrs :=
        st.instrs ++ [Entry.instr "LOAD_ATTR" (Arg.pair false (Arg.str "bar")) st.lineno] } :=
  ⟨rfl, rfl⟩

/-! ### C10 — placeholder binding applies no version transform -/

/-- The builder state after parsing the single placeholder line
`LOAD_METHOD {x}` on a 3.12 target. -/
def c10asm : Assembly :=
  (asmEmpty.parse ctx312 "LOAD_METHOD \x7bx\x7d").toOption.getD asmEmpty

/-- C10: a placeholder records the specialized mnemonic verbatim (parsing the
same mnemonic with a concrete operand would rewrite it, cf. the transform),
and binding yields an instruction that keeps `LOAD_METHOD` and the supplied
operand untagged, for every values mapping and line number. -/
theorem c10_bound_placeholder_untransformed :
    (∀ st : Assembly,
      st.parse_lines ctx312 ["LOAD_METHOD \x7bx\x7d"] =
        Except.ok { st with
          instrs := st.instrs ++ [Entry.bindOpArg ⟨"LOAD_METHOD", "x", st.lineno⟩],
          bindOpargs := st.bindOpargs ++ [(st.instrs.length, ⟨"LOAD_METHOD", "x", st.lineno⟩)] }) ∧
    (∀ ba : String → Arg,
      c10asm.bind (some ba) none =
        Except.ok [Entry.instr "LOAD_METHOD" (ba "x") none]) ∧
    (∀ (ba : String → Arg) (n : Nat),
      c10asm.bind (some ba) (some n) =
        Except.ok [Entry.instr "LOAD_METHOD" (ba "x") (some n)]) :=
  ⟨fun _ => rfl, fun _ => rfl, fun _ _ => rfl⟩

/-! ### C3 — where the pending-label symbol error is raised -/

/-- The builder state left behind by the (failing) parse of `JUMP @missing`:
the entries were appended and `missing` is pending.  In Python this state is
reachable by catching the `ValueError` that `parse` raises. -/
def c3state : Assembly :=
  (asmEmpty.parse_lines ctx312 ["JUMP @missing"]).toOption.getD asmEmpty

/-- C3 counterexample: compiling an Assembly whose pending map still holds
`missing` does not fail with the symbol error — the in-repository step of
`compile` (its call to `bind`) succeeds, because `compile` never invokes
`_validate`. -/
theorem c3_counterexample :
    c3state.refLabels = [("missing", 0)] ∧
    c3state.compile none none = Except.ok [Entry.instr "JUMP" (Arg.lbl 0) none] :=
  ⟨rfl, rfl⟩

/-- C3 amended: the symbol error listing the pending identifiers is raised at
the end of `parse`, so the one-line program `JUMP @missing` fails during
parsing — before any finalization — with a symbol error naming `missing`. -/
theorem c3_symbol_error_at_parse :
    asmEmpty.parse ctx312 "JUMP @missing" = Except.error "undefined labels: missing" :=
  rfl

/-! ### C9 — pending-label validation runs at the end of every parse call -/

/-- C9: a parse call that returns successfully leaves no pending label, and
if, after a parse call's lines are processed, any referenced label is still
undefined, that same parse call fails with the undefined-labels symbol error
listing exactly the pending identifiers. -/
theorem c9_validate_each_parse :
    (∀ (ctx : PyCtx) (st st' : Assembly) (text : String),
      st.parse ctx text = Except.ok st' → st'.refLabels = []) ∧
    (∀ (ctx : PyCtx) (st stMid : Assembly) (text : String),
      Assembly.parse_lines ctx st (pySplitlines text) = Except.ok stMid →
      stMid.refLabels ≠ [] →
      st.parse ctx text =
        Except.error ("undefined labels: " ++ joinWith ", " (stMid.refLabels.map Prod.fst))) := by
  constructor
  · intro ctx st st' text h
    unfold Assembly.parse at h
    cases hpl : Assembly.parse_lines ctx st (pySplitlines text) with
    | error e => rw [hpl] at h; cases h
    | ok stMid =>
      rw [hpl] at h
      rw [exceptBind_ok] at h
      unfold Assembly._validate at h
      cases hv : stMid.refLabels.isEmpty with
      | true =>
        rw [hv] at h
        simp only [if_true, exceptBind_ok] at h
        cases h
        exact List.isEmpty_iff.mp hv
      | false =>
        rw [hv] at h
        simp only [Bool.false_eq_true, if_false, exceptBind_error] at h
        cases h
  · intro ctx st stMid text hpl hne
    unfold Assembly.parse
    rw [hpl, exceptBind_ok]
    unfold Assembly._validate
    have hv : stMid.refLabels.isEmpty = false := by
      cases hm : stMid.refLabels.isEmpty with
      | true => exact absurd (List.isEmpty_iff.mp hm) hne
      | false => rfl
    rw [hv]
    simp

/-- The state after the successful parse of the single line `NOP`. -/
def c9okState : Assembly := (asmEmpty.parse ctx312 "NOP").toOption.getD asmEmpty

/-- Witness for C9 at concrete inputs. -/
theorem c9_validate_each_parse_witness :
    c9okState.refLabels = [] ∧
    asmEmpty.parse ctx312 "JUMP @missing" = Except.error "undefined labels: missing" :=
  ⟨c9_validate_each_parse.1 ctx312 asmEmpty c9okState "NOP" rfl,
   c9_validate_each_parse.2 ctx312 asmEmpty c3state "JUMP @missing" rfl (by decide)⟩

/-! ### C8 — digit-only operand tokens and the resolution chain -/

/-- C8 counterexample: the digit-only token `0` does not stop at the integer
step — Python's `or`-chain treats the integer `0` as falsy, so resolution
falls through to the expression-evaluation fallback (the `Arg.expr` result
identifies the fallback branch). -/
theorem c8_counterexample :
    asmEmpty.parse_opcode_arg "0" = Except.ok (Arg.expr "0", asmEmpty) := rfl

/-- C8 amended: a non-empty all-digit operand token whose integer value is
non-zero resolves at the integer-literal step (3) — the `Arg.int` result —
leaving the state untouched and never reaching the expression fallback;
zero-valued digit tokens instead fall through to step (5), because the
integer `0` is falsy in the `or`-chain. -/
theorem c8_digit_tokens_resolve_as_int (st : Assembly) (s : String)
    (h1 : s.toList ≠ []) (h2 : s.toList.all Char.isDigit = true)
    (h3 : digitsVal s.toList ≠ 0) :
    st.parse_opcode_arg s = Except.ok (Arg.int (digitsVal s.toList), st) := by
  obtain ⟨c, cs, hcs⟩ : ∃ c cs, s.toList = c :: cs := by
    cases hs : s.toList with
    | nil => exact absurd hs h1
    | cons c cs => exact ⟨c, cs, rfl⟩
  have hall : ∀ x ∈ s.toList, x.isDigit = true := by
    intro x hx
    exact List.all_eq_true.mp h2 x hx
  have hc : c.isDigit = true := hall c (by rw [hcs]; simp)
  have hsne : ¬(s = "") := by
    intro he
    rw [he] at hcs
    cases hcs
  have hlr : pyStartsWith s '@' = false := by
    simp only [pyStartsWith, hcs, List.head?_cons]
    simp [isDigit_ne hc '@' (by decide)]
  have hsr : pyStartsWith s '$' = false := by
    simp only [pyStartsWith, hcs, List.head?_cons]
    simp [isDigit_ne hc '$' (by decide)]
  have hstrip : pyStripList s.toList = s.toList :=
    pyStripList_eq_self (fun x hx => isDigit_not_pySpace (hall x hx))
  have hnum : parse_number s = some ((digitsVal s.toList : Nat) : Int) := by
    unfold parse_number pyInt
    rw [hstrip, hcs]
    simp only []
    rw [if_neg (isDigit_ne hc '-' (by decide))]
    rw [if_neg (isDigit_ne hc '+' (by decide))]
    unfold pyIntDigits
    rw [if_neg (by simp : ¬(c :: cs = []))]
    rw [if_pos (by rw [← hcs]; exact h2)]
    simp [← hcs]
  have hplr : st.parse_label_ref s = Except.ok none := by
    unfold Assembly.parse_label_ref
    rw [if_pos hlr]
  have hpsr : parse_string_ref s = Except.ok none := by
    unfold parse_string_ref
    rw [if_pos hsr]
  unfold Assembly.parse_opcode_arg
  rw [if_neg hsne]
  simp only [hplr, hpsr, exceptBind_ok, hnum]
  rw [if_neg (Int.natCast_ne_zero.mpr h3)]

/-- Witness for C8 (amended) at the concrete token `42`. -/
theorem c8_digit_tokens_resolve_as_int_witness :
    asmEmpty.parse_opcode_arg "42" = Except.ok (Arg.int 42, asmEmpty) :=
  c8_digit_tokens_resolve_as_int asmEmpty "42" (by decide) (by decide) (by decide)

/-! ### C2 — forward references and definitions share one label identity -/

theorem at_toList (L : String) : ("@" ++ L).toList = '@' :: L.toList := rfl

theorem colon_toList (L : String) : (L ++ ":").toList = L.toList ++ [':'] := rfl

theorem pyDrop1_at (L : String) : pyDrop1 ("@" ++ L) = L := rfl

theorem pyStartsWith_at (L : String) : pyStartsWith ("@" ++ L) '@' = true := by
  simp [pyStartsWith, at_toList]

theorem pyEndsWith_colon (L : String) : pyEndsWith (L ++ ":") ':' = true := by
  simp [pyEndsWith, colon_toList, List.getLast?_concat]

theorem pyDropRight1_colon (L : String) : pyDropRight1 (L ++ ":") = L := by
  unfold pyDropRight1
  rw [colon_toList, List.dropLast_concat]
  rfl

theorem parse_ident_ok {L : String} (hid : pyIsIdentifier L = true) :
    parse_ident L = Except.ok L := by
  unfold parse_ident
  rw [if_pos hid]

/-- Referencing an identifier that is neither defined nor pending registers a
fresh pending label. -/
theorem parse_label_ref_pending (st : Assembly) (L : String)
    (hid : pyIsIdentifier L = true) (hdef : st.labels.lookup L = none)
    (href : st.refLabels.lookup L = none) :
    st.parse_label_ref ("@" ++ L) = Except.ok (some (st.fresh,
      { st with refLabels := st.refLabels ++ [(L, st.fresh)], fresh := st.fresh + 1 })) := by
  unfold Assembly.parse_label_ref
  rw [if_neg (by rw [pyStartsWith_at]; simp)]
  rw [pyDrop1_at]
  simp only [parse_ident_ok hid, exceptBind_ok, hdef, href]

/-- Referencing a defined identifier returns its label, untouched state. -/
theorem parse_label_ref_defined (st : Assembly) (L : String) (v : Nat)
    (hid : pyIsIdentifier L = true) (hdef : st.labels.lookup L = some v) :
    st.parse_label_ref ("@" ++ L) = Except.ok (some (v, st)) := by
  unfold Assembly.parse_label_ref
  rw [if_neg (by rw [pyStartsWith_at]; simp)]
  rw [pyDrop1_at]
  simp only [parse_ident_ok hid, exceptBind_ok, hdef]

/-- Defining an identifier with no pending reference allocates a fresh label. -/
theorem parse_label_fresh (st : Assembly) (L : String)
    (hid : pyIsIdentifier L = true) (hdef : st.labels.lookup L = none)
    (href : st.refLabels.lookup L = none) :
    st.parse_label (L ++ ":") = Except.ok (some (st.fresh,
      { st with labels := st.labels ++ [(L, st.fresh)], fresh := st.fresh + 1 })) := by
  unfold Assembly.parse_label
  rw [if_neg (by rw [pyEndsWith_colon]; simp)]
  rw [pyDropRight1_colon]
  simp only [parse_ident_ok hid, exceptBind_ok, hdef, href, Option.isSome_none,
    Bool.false_eq_true, if_false]

/-- Defining an identifier with a pending reference promotes the pending
label, preserving its identity. -/
theorem parse_label_promote (st : Assembly) (L : String) (v : Nat)
    (hid : pyIsIdentifier L = true) (hdef : st.labels.lookup L = none)
    (href : st.refLabels.lookup L = some v) :
    st.parse_label (L ++ ":") = Except.ok (some (v,
      { st with labels := st.labels ++ [(L, v)],
                refLabels := st.refLabels.filter (fun p => p.1 != L) })) := by
  unfold Assembly.parse_label
  rw [if_neg (by rw [pyEndsWith_colon]; simp)]
  rw [pyDropRight1_colon]
  simp only [parse_ident_ok hid, exceptBind_ok, hdef, href, Option.isSome_none,
    Bool.false_eq_true, if_false]

/-- C2: for an identifier `L` neither defined nor pending, reference-then-
define yields the same label handle at both steps (the pending label is
promoted, and a lookup of `L` afterwards finds that very handle), and
define-then-reference returns the defined label handle with the state
untouched — one shared label identity in both orders. -/
theorem c2_shared_label_identity (st : Assembly) (L : String)
    (hid : pyIsIdentifier L = true) (hdef : st.labels.lookup L = none)
    (href : st.refLabels.lookup L = none) :
    (∃ st1, st.parse_label_ref ("@" ++ L) = Except.ok (some (st.fresh, st1)) ∧
       ∃ st2, st1.parse_label (L ++ ":") = Except.ok (some (st.fresh, st2)) ∧
         st2.labels.lookup L = some st.fresh) ∧
    (∃ st1, st.parse_label (L ++ ":") = Except.ok (some (st.fresh, st1)) ∧
       st1.parse_label_ref ("@" ++ L) = Except.ok (some (st.fresh, st1))) := by
  constructor
  · refine ⟨_, parse_label_ref_pending st L hid hdef href, ?_⟩
    refine ⟨_, parse_label_promote _ L st.fresh hid hdef
      (lookup_append_self st.refLabels L st.fresh [] href), ?_⟩
    exact lookup_append_self st.labels L st.fresh [] hdef
  · refine ⟨_, parse_label_fresh st L hid hdef href, ?_⟩
    exact parse_label_ref_defined _ L st.fresh hid
      (lookup_append_self st.labels L st.fresh [] hdef)

/-- Witness for C2 at the empty builder and identifier `foo`. -/
theorem c2_shared_label_identity_witness :
    (∃ st1, asmEmpty.parse_label_ref ("@" ++ "foo") = Except.ok (some (0, st1)) ∧
       ∃ st2, st1.parse_label ("foo" ++ ":") = Except.ok (some (0, st2)) ∧
         st2.labels.lookup "foo" = some 0) ∧
    (∃ st1, asmEmpty.parse_label ("foo" ++ ":") = Except.ok (some (0, st1)) ∧
       st1.parse_label_ref ("@" ++ "foo") = Except.ok (some (0, st1))) :=
  c2_shared_label_identity asmEmpty "foo" (by decide) rfl rfl

/-! ### C7 — dis() output does not round-trip in general -/

/-- C7 counterexample: the valid program `LOAD_FAST $x` parses, `dis`
renders its string operand bare (`LOAD_FAST   ...   x`), and reparsing that
output resolves `x` through the expression fallback instead of as a string
literal — the round-tripped entry sequence is not structurally equal. -/
theorem c7_counterexample :
    disRoundTrip ctx310 "LOAD_FAST $x" = false ∧
    (∃ st, asmEmpty.parse ctx310 "LOAD_FAST $x" = Except.ok st ∧
       st.instrs = [Entry.instr "LOAD_FAST" (Arg.str "x") none] ∧
       ∃ ls, st.dis = some ls ∧
         ∃ st2, asmEmpty.parse ctx310 (joinWith "\n" ls) = Except.ok st2 ∧
           st2.instrs = [Entry.instr "LOAD_FAST" (Arg.expr "x") none] ∧
           st2.instrs ≠ st.instrs) := by
  refine ⟨rfl, _, rfl, rfl, _, rfl, _, rfl, rfl, ?_⟩
  decide

/-- C7 amended: the round-trip property holds only on a restricted fragment
of programs — here, a label definition followed by an instruction whose
operand is a (non-zero) single-digit integer literal; in general `dis` output
is not reparseable to an equal sequence (string operands render bare,
`TryEnd` entries produce no output line, the `lasti` flag always reparses as
true, and label operands render as opaque object text). -/
theorem c7_roundtrip_restricted (d : Nat) (h1 : 1 ≤ d) (h2 : d ≤ 9) :
    disRoundTrip ctx310 ("start:\nLOAD_CONST " ++ Nat.repr d) = true := by
  interval_cases d <;> rfl

/-- Witness for C7 (amended) at `d = 5`. -/
theorem c7_roundtrip_restricted_witness :
    disRoundTrip ctx310 ("start:\nLOAD_CONST " ++ Nat.repr 5) = true :=
  c7_roundtrip_restricted 5 (by decide) (by decide)

/-! ### Lemmas about the placeholder-substitution fold of `bind` -/

theorem foldl_set_length (l : List (Nat × BindData)) (acc : List Entry)
    (f : Nat × BindData → Entry) :
    (l.foldl (fun a pd => a.set pd.1 (f pd)) acc).length = acc.length := by
  induction l generalizing acc with
  | nil => rfl
  | cons p t ih => rw [List.foldl_cons, ih, List.length_set]

theorem foldl_set_not_mem (l : List (Nat × BindData)) (acc : List Entry)
    (f : Nat × BindData → Entry) (i : Nat) (h : i ∉ l.map Prod.fst) :
    (l.foldl (fun a pd => a.set pd.1 (f pd)) acc)[i]? = acc[i]? := by
  induction l generalizing acc with
  | nil => rfl
  | cons p t ih =>
    simp only [List.map_cons, List.mem_cons, not_or] at h
    rw [List.foldl_cons, ih _ h.2, List.getElem?_set_ne (fun he => h.1 he.symm)]

theorem foldl_set_mem (l : List (Nat × BindData)) (acc : List Entry)
    (f : Nat × BindData → Entry) (p : Nat) (d : BindData)
    (hmem : (p, d) ∈ l) (hnd : (l.map Prod.fst).Nodup) (hlt : p < acc.length) :
    (l.foldl (fun a pd => a.set pd.1 (f pd)) acc)[p]? = some (f (p, d)) := by
  induction l generalizing acc with
  | nil => cases hmem
  | cons q t ih =>
    simp only [List.map_cons, List.nodup_cons] at hnd
    rw [List.foldl_cons]
    rcases List.mem_cons.mp hmem with heq | hmem'
    · subst heq
      rw [foldl_set_not_mem t _ f p hnd.1]
      exact List.getElem?_set_self hlt
    · exact ih _ hmem' hnd.2 (by rw [List.length_set]; exact hlt)

theorem relocate_getElem? (l : List Entry) (N i : Nat) :
    (relocate l N)[i]? = (l[i]?).map (fun e =>
      match e with
      | Entry.instr n a _ => Entry.instr n a (some N)
      | other => other) := by
  unfold relocate
  rw [List.getElem?_map]

/-- In a well-formed state, a position holding a non-placeholder entry is not
among the recorded placeholder positions. -/
theorem not_mem_bindOpargs_of_wf (st : Assembly)
    (hpos : ∀ pd ∈ st.bindOpargs, st.instrs[pd.1]? = some (Entry.bindOpArg pd.2))
    (i : Nat) (e : Entry) (hi : st.instrs[i]? = some e)
    (hne : ∀ d, e ≠ Entry.bindOpArg d) : i ∉ st.bindOpargs.map Prod.fst := by
  intro hmem
  obtain ⟨⟨p, d⟩, hpd, hfst⟩ := List.mem_map.mp hmem
  cases hfst
  have h2 := hpos (p, d) hpd
  rw [hi] at h2
  cases h2
  exact hne d rfl

/-! ### C1 — binding a template with placeholders -/

/-- C1: for a well-formed builder whose sequence contains a placeholder,
`bind` without a values mapping fails with the binding error; `bind` with any
values mapping succeeds with a sequence of the same length in which every
placeholder, at its recorded position, has become an instruction whose
opcode is the recorded one and whose operand is `values[identifier]`.  The
builder state itself is a value, so two successive binds with different
mappings are independent instances of the same statement. -/
theorem c1_bind_template (st : Assembly) (hwf : st.WF)
    (hph : ∃ d, Entry.bindOpArg d ∈ st.instrs) :
    (∀ ln, st.bind none ln = Except.error "missing bind arguments") ∧
    (∀ (ba : String → Arg) (ln : Option Nat) (out : List Entry),
      st.bind (some ba) ln = Except.ok out →
      out.length = st.instrs.length ∧
      ∀ pd ∈ st.bindOpargs, ∃ l,
        out[pd.1]? = some (Entry.instr pd.2.name (ba pd.2.arg) l)) := by
  obtain ⟨hnd, hpos, hrec⟩ := hwf
  have hne : st.bindOpargs.isEmpty = false := by
    obtain ⟨d, hd⟩ := hph
    obtain ⟨i, hi⟩ := List.mem_iff_getElem?.mp hd
    have hen : (i, Entry.bindOpArg d) ∈ st.instrs.enum :=
      List.mk_mem_enum_iff_getElem?.mpr hi
    have h2 := hrec _ hen
    unfold entryRecorded at h2
    have h3 : (i, d) ∈ st.bindOpargs := of_decide_eq_true h2
    cases hE : st.bindOpargs with
    | nil => rw [hE] at h3; cases h3
    | cons x xs => rfl
  constructor
  · intro ln
    unfold Assembly.bind
    simp only [hne, Bool.false_eq_true, if_false]
  · intro ba ln out hout
    unfold Assembly.bind at hout
    simp only [hne, Bool.false_eq_true, if_false] at hout
    have hfoldlen :
        (st.bindOpargs.foldl (fun acc pd => acc.set pd.1 (pd.2.call ba ln)) st.instrs).length =
          st.instrs.length := foldl_set_length _ _ _
    have hfoldget : ∀ pd ∈ st.bindOpargs,
        (st.bindOpargs.foldl (fun acc pd => acc.set pd.1 (pd.2.call ba ln)) st.instrs)[pd.1]? =
          some (pd.2.call ba ln) := by
      intro pd hpd
      have hlt : pd.1 < st.instrs.length :=
        (List.getElem?_eq_some_iff.mp (hpos pd hpd)).1
      exact foldl_set_mem st.bindOpargs st.instrs _ pd.1 pd.2 hpd hnd hlt
    cases ln with
    | none =>
      cases hout
      refine ⟨hfoldlen, fun pd hpd => ⟨pd.2.lineno, ?_⟩⟩
      rw [hfoldget pd hpd]
      rfl
    | some N =>
      cases hout
      constructor
      · unfold relocate
        rw [List.length_map]
        exact hfoldlen
      · intro pd hpd
        refine ⟨some N, ?_⟩
        rw [relocate_getElem?, hfoldget pd hpd]
        rfl

/-- Builder state after parsing the placeholder template `LOAD_CONST {a}`. -/
def c1state : Assembly :=
  (asmEmpty.parse ctx312 "LOAD_CONST \x7ba\x7d").toOption.getD asmEmpty

/-- Witness for C1 at a concrete parsed template. -/
theorem c1_bind_template_witness :
    c1state.bind none none = Except.error "missing bind arguments" :=
  (c1_bind_template c1state (by decide) ⟨⟨"LOAD_CONST", "a", none⟩, by decide⟩).1 none

/-! ### C5 — relocation of line numbers -/

/-- C5: for a well-formed builder, `bind` with line number `N` yields a
sequence in which every instruction entry carries line `N` while every label
or region entry is unchanged at its position; `bind` without a line number
leaves every instruction entry (with its original line number) unchanged at
its position. -/
theorem c5_relocation (st : Assembly) (hwf : st.WF) :
    (∀ (N : Nat) (ba : Option (String → Arg)) (out : List Entry),
      st.bind ba (some N) = Except.ok out →
      (∀ (i : Nat) (n : String) (a : Arg) (l : Option Nat),
        out[i]? = some (Entry.instr n a l) → l = some N) ∧
      (∀ (i : Nat) (e : Entry),
        st.instrs[i]? = some e → labelOrRegion e = true → out[i]? = some e)) ∧
    (∀ (ba : Option (String → Arg)) (out : List Entry),
      st.bind ba none = Except.ok out →
      ∀ (i : Nat) (n : String) (a : Arg) (l : Option Nat),
        st.instrs[i]? = some (Entry.instr n a l) →
        out[i]? = some (Entry.instr n a l)) := by
  obtain ⟨hnd, hpos, hrec⟩ := hwf
  have hrelocInstr : ∀ (mid : List Entry) (N i : Nat) (n : String) (a : Arg) (l : Option Nat),
      (relocate mid N)[i]? = some (Entry.instr n a l) → l = some N := by
    intro mid N i n a l h
    rw [relocate_getElem?] at h
    cases hm : mid[i]? with
    | none => rw [hm] at h; cases h
    | some e' =>
      rw [hm] at h
      cases e' with
      | instr n' a' l' => cases h; rfl
      | lbl x => cases h
      | tryBegin x p => cases h
      | tryEnd x p => cases h
      | bindOpArg d => cases h
  have hrelocKeep : ∀ (mid : List Entry) (N i : Nat) (e : Entry),
      mid[i]? = some e → labelOrRegion e = true → (relocate mid N)[i]? = some e := by
    intro mid N i e hm hlr
    rw [relocate_getElem?, hm]
    cases e with
    | instr n a l => cases hlr
    | lbl x => rfl
    | tryBegin x p => rfl
    | tryEnd x p => rfl
    | bindOpArg d => cases hlr
  have hmidKeep : ∀ (ba : String → Arg) (ln : Option Nat) (i : Nat) (e : Entry),
      st.instrs[i]? = some e → (∀ d, e ≠ Entry.bindOpArg d) →
      (st.bindOpargs.foldl (fun acc pd => acc.set pd.1 (pd.2.call ba ln)) st.instrs)[i]? =
        some e := by
    intro ba ln i e hi hne
    rw [foldl_set_not_mem _ _ _ i (not_mem_bindOpargs_of_wf st hpos i e hi hne)]
    exact hi
  constructor
  · intro N ba out hout
    unfold Assembly.bind at hout
    cases hE : st.bindOpargs.isEmpty with
    | true =>
      rw [hE] at hout
      simp only [if_true] at hout
      cases hout
      refine ⟨fun i n a l h => hrelocInstr _ N i n a l h, fun i e hi hlr => ?_⟩
      exact hrelocKeep _ N i e hi hlr
    | false =>
      rw [hE] at hout
      simp only [Bool.false_eq_true, if_false] at hout
      cases ba with
      | none => cases hout
      | some ba' =>
        cases hout
        refine ⟨fun i n a l h => hrelocInstr _ N i n a l h, fun i e hi hlr => ?_⟩
        refine hrelocKeep _ N i e ?_ hlr
        refine hmidKeep ba' (some N) i e hi ?_
        intro d he
        cases he
        cases hlr
  · intro ba out hout
    unfold Assembly.bind at hout
    cases hE : st.bindOpargs.isEmpty with
    | true =>
      rw [hE] at hout
      simp only [if_true] at hout
      cases hout
      intro i n a l hi
      exact hi
    | false =>
      rw [hE] at hout
      simp only [Bool.false_eq_true, if_false] at hout
      cases ba with
      | none => cases hout
      | some ba' =>
        cases hout
        intro i n a l hi
        refine hmidKeep ba' none i (Entry.instr n a l) hi ?_
        intro d he
        cases he

/-- Builder state after parsing `start:` and `LOAD_CONST 1`. -/
def c5state : Assembly :=
  (asmEmpty.parse ctx312 "start:\nLOAD_CONST 1").toOption.getD asmEmpty

def c5out : List Entry := [Entry.lbl 0, Entry.instr "LOAD_CONST" (Arg.int 1) (some 7)]

/-- Witness for C5: relocating to line 7 keeps the label entry unchanged at
its position. -/
theorem c5_relocation_witness : c5out[0]? = some (Entry.lbl 0) :=
  ((c5_relocation c5state (by decide)).1 7 none c5out rfl).2 0 (Entry.lbl 0) rfl rfl

/-! ### C6 — region tracker: state effects of each line production -/

theorem parse_label_ref_effects (st : Assembly) (text : String) (l : Nat) (st' : Assembly)
    (h : st.parse_label_ref text = Except.ok (some (l, st'))) :
    st'.tb = st.tb ∧ st'.instrs = st.instrs ∧ st'.bindOpargs = st.bindOpargs := by
  unfold Assembly.parse_label_ref at h
  split at h
  · simp only [Except.ok.injEq] at h
    exact Option.noConfusion h
  · cases hpi : parse_ident (pyDrop1 text) with
    | error e => rw [hpi, exceptBind_error] at h; exact Except.noConfusion h
    | ok ident =>
      rw [hpi, exceptBind_ok] at h
      split at h
      · simp only [Except.ok.injEq, Option.some.injEq, Prod.mk.injEq] at h
        obtain ⟨-, h2⟩ := h
        subst h2
        exact ⟨rfl, rfl, rfl⟩
      · split at h
        · simp only [Except.ok.injEq, Option.some.injEq, Prod.mk.injEq] at h
          obtain ⟨-, h2⟩ := h
          subst h2
          exact ⟨rfl, rfl, rfl⟩
        · simp only [Except.ok.injEq, Option.some.injEq, Prod.mk.injEq] at h
          obtain ⟨-, h2⟩ := h
          subst h2
          exact ⟨rfl, rfl, rfl⟩

theorem parse_label_effects (st : Assembly) (line : String) (l : Nat) (st' : Assembly)
    (h : st.parse_label line = Except.ok (some (l, st'))) :
    st'.tb = st.tb ∧ st'.instrs = st.instrs ∧ st'.bindOpargs = st.bindOpargs := by
  unfold Assembly.parse_label at h
  split at h
  · simp only [Except.ok.injEq] at h
    exact Option.noConfusion h
  · cases hpi : parse_ident (pyDropRight1 line) with
    | error e => rw [hpi, exceptBind_error] at h; exact Except.noConfusion h
    | ok ident =>
      rw [hpi, exceptBind_ok] at h
      split at h
      · exact Except.noConfusion h
      · split at h
        · simp only [Except.ok.injEq, Option.some.injEq, Prod.mk.injEq] at h
          obtain ⟨-, h2⟩ := h
          subst h2
          exact ⟨rfl, rfl, rfl⟩
        · simp only [Except.ok.injEq, Option.some.injEq, Prod.mk.injEq] at h
          obtain ⟨-, h2⟩ := h
          subst h2
          exact ⟨rfl, rfl, rfl⟩

theorem parse_opcode_arg_effects (st : Assembly) (text : String) (r : Arg × Assembly)
    (h : st.parse_opcode_arg text = Except.ok r) :
    r.2.tb = st.tb ∧ r.2.instrs = st.instrs ∧ r.2.bindOpargs = st.bindOpargs := by
  unfold Assembly.parse_opcode_arg at h
  split at h
  · simp only [Except.ok.injEq] at h
    subst h
    exact ⟨rfl, rfl, rfl⟩
  · simp only [] at h
    cases hlr : st.parse_label_ref text with
    | error e => rw [hlr, exceptBind_error] at h; exact Except.noConfusion h
    | ok ro =>
      rw [hlr, exceptBind_ok] at h
      cases ro with
      | some ls =>
        obtain ⟨l2, st2⟩ := ls
        simp only [Except.ok.injEq] at h
        subst h
        exact parse_label_ref_effects st text l2 st2 hlr
      | none =>
        simp only [] at h
        cases hsr : parse_string_ref text with
        | error e => rw [hsr, exceptBind_error] at h; exact Except.noConfusion h
        | ok rs =>
          rw [hsr, exceptBind_ok] at h
          have hnum : ∀ hh : (match parse_number text with
              | some n =>
                if n = 0 then (Except.ok (parse_expr text, st) : Except String (Arg × Assembly))
                else Except.ok (Arg.int n, st)
              | none => Except.ok (parse_expr text, st)) = Except.ok r,
              r.2.tb = st.tb ∧ r.2.instrs = st.instrs ∧ r.2.bindOpargs = st.bindOpargs := by
            intro hh
            split at hh
            · split at hh
              · simp only [Except.ok.injEq] at hh
                subst hh
                exact ⟨rfl, rfl, rfl⟩
              · simp only [Except.ok.injEq] at hh
                subst hh
                exact ⟨rfl, rfl, rfl⟩
            · simp only [Except.ok.injEq] at hh
              subst hh
              exact ⟨rfl, rfl, rfl⟩
          cases rs with
          | some s =>
            simp only [] at h
            split at h
            · exact hnum h
            · simp only [Except.ok.injEq] at h
              subst h
              exact ⟨rfl, rfl, rfl⟩
          | none =>
            simp only [] at h
            exact hnum h

theorem parse_try_begin_some_effects (st : Assembly) (line : String) (e : Entry)
    (st' : Assembly) (h : st.parse_try_begin line = Except.ok (some (e, st'))) :
    ∃ t p, e = Entry.tryBegin t p ∧ st.tb = none ∧ st'.tb = some (t, p) ∧
      st'.instrs = st.instrs ∧ st'.bindOpargs = st.bindOpargs := by
  unfold Assembly.parse_try_begin at h
  cases hsp : pySplit line 2 with
  | nil =>
    rw [hsp] at h
    simp only [Except.ok.injEq] at h
    exact Option.noConfusion h
  | cons head tl =>
    cases tl with
    | nil =>
      rw [hsp] at h
      simp only [Except.ok.injEq] at h
      exact Option.noConfusion h
    | cons labelRef lasti =>
      rw [hsp] at h
      simp only [] at h
      split at h
      · simp only [Except.ok.injEq] at h
        exact Option.noConfusion h
      · split at h
        · exact Except.noConfusion h
        · next hno =>
          cases hlr : st.parse_label_ref labelRef with
          | error er => rw [hlr, exceptBind_error] at h; exact Except.noConfusion h
          | ok ro =>
            rw [hlr, exceptBind_ok] at h
            cases ro with
            | none => exact Except.noConfusion h
            | some ls =>
              obtain ⟨l2, st2⟩ := ls
              simp only [Except.ok.injEq, Option.some.injEq, Prod.mk.injEq] at h
              obtain ⟨he, h2⟩ := h
              subst h2
              obtain ⟨htb, hin, hbo⟩ := parse_label_ref_effects st labelRef l2 st2 hlr
              exact ⟨l2, !lasti.isEmpty, he.symm,
                Option.not_isSome_iff_eq_none.mp hno, rfl, hin, hbo⟩

theorem parse_try_end_some_effects (st : Assembly) (line : String) (e : Entry)
    (st' : Assembly) (h : st.parse_try_end line = Except.ok (some (e, st'))) :
    ∃ t p, e = Entry.tryEnd t p ∧ st.tb = some (t, p) ∧ st'.tb = none ∧
      st'.instrs = st.instrs ∧ st'.bindOpargs = st.bindOpargs := by
  unfold Assembly.parse_try_end at h
  split at h
  · simp only [Except.ok.injEq] at h
    exact Option.noConfusion h
  · split at h
    · exact Except.noConfusion h
    · case _ t p heq =>
      simp only [Except.ok.injEq, Option.some.injEq, Prod.mk.injEq] at h
      obtain ⟨he, h2⟩ := h
      subst h2
      exact ⟨t, p, he.symm, heq, rfl, rfl, rfl⟩

theorem parse_instruction_effects (st : Assembly) (ctx : PyCtx) (line : String)
    (e : Entry) (st' : Assembly) (h : st.parse_instruction ctx line = Except.ok (e, st')) :
    st'.tb = st.tb ∧ st'.instrs = st.instrs ∧ st'.bindOpargs = st.bindOpargs ∧
      (∀ o, regionStep e o = some o) := by
  unfold Assembly.parse_instruction at h
  have hinstr : ∀ (opcode arg : String),
      (do
        let op ← parse_opcode ctx opcode
        let r ← st.parse_opcode_arg arg
        let t := transform_instruction ctx.ge312 op r.1
        Except.ok (Entry.instr t.1 t.2 st.lineno, r.2)) = Except.ok (e, st') →
      st'.tb = st.tb ∧ st'.instrs = st.instrs ∧ st'.bindOpargs = st.bindOpargs ∧
        (∀ o, regionStep e o = some o) := by
    intro opcode arg hh
    cases hop : parse_opcode ctx opcode with
    | error er => rw [hop, exceptBind_error] at hh; exact Except.noConfusion hh
    | ok op =>
      rw [hop, exceptBind_ok] at hh
      cases hoa : st.parse_opcode_arg arg with
      | error er => rw [hoa, exceptBind_error] at hh; exact Except.noConfusion hh
      | ok r =>
        rw [hoa, exceptBind_ok] at hh
        simp only [Except.ok.injEq, Prod.mk.injEq] at hh
        obtain ⟨he, h2⟩ := hh
        subst h2
        obtain ⟨htb, hin, hbo⟩ := parse_opcode_arg_effects st arg r hoa
        refine ⟨htb, hin, hbo, ?_⟩
        intro o
        rw [← he]
        rfl
  cases hsp : pySplit line 1 with
  | nil =>
    rw [hsp] at h
    exact Except.noConfusion h
  | cons opcode args =>
    rw [hsp] at h
    simp only [] at h
    cases args with
    | nil => exact hinstr opcode "" h
    | cons arg rest =>
      simp only [] at h
      cases hba : parse_bind_opcode_arg arg with
      | some bindArg =>
        rw [hba] at h
        simp only [] at h
        cases hop : parse_opcode ctx opcode with
        | error er => rw [hop, exceptBind_error] at h; exact Except.noConfusion h
        | ok op =>
          rw [hop, exceptBind_ok] at h
          simp only [Except.ok.injEq, Prod.mk.injEq] at h
          obtain ⟨he, h2⟩ := h
          subst h2
          refine ⟨rfl, rfl, rfl, fun o => ?_⟩
          rw [← he]
          rfl
      | none =>
        rw [hba] at h
        simp only [] at h
        exact hinstr opcode arg h

/-- Any successfully parsed line leaves the instruction sequence untouched
(the caller appends), and affects the open-region field in exactly one of
three ways: not at all (non-region entries), opening (try-begin, only from a
closed state), or closing (try-end, only from an open state). -/
theorem parse_line_region (st : Assembly) (ctx : PyCtx) (line : String)
    (e : Entry) (st' : Assembly) (h : st.parse_line ctx line = Except.ok (e, st')) :
    st'.instrs = st.instrs ∧ st'.bindOpargs = st.bindOpargs ∧
    ((st'.tb = st.tb ∧ ∀ o, regionStep e o = some o) ∨
     (∃ t p, e = Entry.tryBegin t p ∧ st.tb = none ∧ st'.tb = some (t, p)) ∨
     (∃ t p, e = Entry.tryEnd t p ∧ st.tb = some (t, p) ∧ st'.tb = none)) := by
  unfold Assembly.parse_line at h
  cases hpl : st.parse_label line with
  | error er => rw [hpl, exceptBind_error] at h; exact Except.noConfusion h
  | ok ro =>
    rw [hpl, exceptBind_ok] at h
    cases ro with
    | some ls =>
      obtain ⟨l2, st2⟩ := ls
      simp only [Except.ok.injEq, Prod.mk.injEq] at h
      obtain ⟨he, h2⟩ := h
      subst h2
      obtain ⟨htb, hin, hbo⟩ := parse_label_effects st line l2 st2 hpl
      refine ⟨hin, hbo, Or.inl ⟨htb, ?_⟩⟩
      intro o
      rw [← he]
      rfl
    | none =>
      simp only [] at h
      split at h
      · cases htb1 : st.parse_try_begin line with
        | error er => rw [htb1, exceptBind_error] at h; exact Except.noConfusion h
        | ok rb =>
          rw [htb1, exceptBind_ok] at h
          cases rb with
          | some pr =>
            simp only [Except.ok.injEq] at h
            subst h
            obtain ⟨t, p, he, h0, h1, hin, hbo⟩ :=
              parse_try_begin_some_effects st line e st' htb1
            exact ⟨hin, hbo, Or.inr (Or.inl ⟨t, p, he, h0, h1⟩)⟩
          | none =>
            simp only [] at h
            cases hte : st.parse_try_end line with
            | error er => rw [hte, exceptBind_error] at h; exact Except.noConfusion h
            | ok re =>
              rw [hte, exceptBind_ok] at h
              cases re with
              | some pr =>
                simp only [Except.ok.injEq] at h
                subst h
                obtain ⟨t, p, he, h0, h1, hin, hbo⟩ :=
                  parse_try_end_some_effects st line e st' hte
                exact ⟨hin, hbo, Or.inr (Or.inr ⟨t, p, he, h0, h1⟩)⟩
              | none =>
                simp only [] at h
                obtain ⟨htb, hin, hbo, hstep⟩ := parse_instruction_effects st ctx line e st' h
                exact ⟨hin, hbo, Or.inl ⟨htb, hstep⟩⟩
      · obtain ⟨htb, hin, hbo, hstep⟩ := parse_instruction_effects st ctx line e st' h
        exact ⟨hin, hbo, Or.inl ⟨htb, hstep⟩⟩

theorem scanRegions_append (l1 l2 : List Entry) (o : Bool) :
    scanRegions (l1 ++ l2) o =
      match scanRegions l1 o with
      | none => none
      | some o' => scanRegions l2 o' := by
  induction l1 generalizing o with
  | nil => rfl
  | cons e t ih =>
    rw [List.cons_append]
    simp only [scanRegions]
    cases hre : regionStep e o with
    | none => rfl
    | some o' => exact ih o'

/-- Processing lines preserves the region invariant. -/
theorem parse_lines_region (ctx : PyCtx) (lines : List String) :
    ∀ st st' : Assembly, st.RegionInv →
      Assembly.parse_lines ctx st lines = Except.ok st' → st'.RegionInv := by
  induction lines with
  | nil =>
    intro st st' hinv h
    unfold Assembly.parse_lines at h
    simp only [Except.ok.injEq] at h
    subst h
    exact hinv
  | cons line rest ih =>
    intro st st' hinv h
    unfold Assembly.parse_lines at h
    simp only [] at h
    split at h
    · exact ih st st' hinv h
    · cases hpl : st.parse_line ctx (pyStrip line) with
      | error er => rw [hpl, exceptBind_error] at h; exact Except.noConfusion h
      | ok pr =>
        rw [hpl, exceptBind_ok] at h
        obtain ⟨e, st1⟩ := pr
        obtain ⟨hin, hbo, hcase⟩ := parse_line_region st ctx (pyStrip line) e st1 hpl
        refine ih _ st' ?_ h
        show scanRegions (st1.instrs ++ [e]) false = some st1.tb.isSome
        rw [hin, scanRegions_append, hinv]
        simp only []
        show (match regionStep e st.tb.isSome with
              | none => none
              | some o' => scanRegions [] o') = some st1.tb.isSome
        rcases hcase with ⟨htb, hstep⟩ | ⟨t, p, he, h0, h1⟩ | ⟨t, p, he, h0, h1⟩
        · rw [hstep st.tb.isSome]
          simp only [scanRegions]
          rw [htb]
        · subst he
          rw [h0, h1]
          rfl
        · subst he
          rw [h0, h1]
          rfl

/-! ### C6 — region errors and the depth-at-most-one invariant -/

/-- C6: parsing a region-begin line (`try @label ...`, i.e. any line whose
token split starts with `try` and a second token) while a region is open
fails with the region error; parsing the region-end line `tried` while none
is open fails with the region error; and any successful parse call preserves
the invariant that scanning the entry sequence never has more than one open
region (ending in the state recorded by the open-region field). -/
theorem c6_region_errors_and_invariant :
    (∀ (st : Assembly) (x : Nat × Bool) (line tok : String) (rest : List String),
      st.tb = some x → pySplit line 2 = "try" :: tok :: rest →
      st.parse_try_begin line =
        Except.error "cannot start try block while another is open") ∧
    (∀ st : Assembly, st.tb = none →
      st.parse_try_end "tried" =
        Except.error "cannot end try block while none is open") ∧
    (∀ (ctx : PyCtx) (st st' : Assembly) (text : String),
      st.RegionInv → st.parse ctx text = Except.ok st' → st'.RegionInv) := by
  refine ⟨?_, ?_, ?_⟩
  · intro st x line tok rest htb hsp
    unfold Assembly.parse_try_begin
    rw [hsp]
    simp only []
    rw [if_neg (by simp)]
    rw [if_pos (by rw [htb]; rfl)]
  · intro st htb
    unfold Assembly.parse_try_end
    rw [if_neg (by simp)]
    rw [htb]
  · intro ctx st st' text hinv h
    unfold Assembly.parse at h
    cases hpl : st.parse_lines ctx (pySplitlines text) with
    | error er => rw [hpl, exceptBind_error] at h; exact Except.noConfusion h
    | ok stM =>
      rw [hpl, exceptBind_ok] at h
      have hM := parse_lines_region ctx (pySplitlines text) st stM hinv hpl
      cases hv : stM._validate with
      | error er => rw [hv, exceptBind_error] at h; exact Except.noConfusion h
      | ok u =>
        rw [hv, exceptBind_ok] at h
        simp only [Except.ok.injEq] at h
        subst h
        exact hM

/-- A builder with an open region. -/
def c6open : Assembly := { asmEmpty with tb := some (0, false) }

/-- Builder state after parsing a program with one complete region. -/
def c6state : Assembly :=
  (asmEmpty.parse ctx312 "begin:\ntry @begin\nNOP\ntried").toOption.getD asmEmpty

/-- Witness for C6 at concrete inputs. -/
theorem c6_region_errors_and_invariant_witness :
    c6open.parse_try_begin "try @x" =
      Except.error "cannot start try block while another is open" ∧
    asmEmpty.parse_try_end "tried" =
      Except.error "cannot end try block while none is open" ∧
    c6state.RegionInv :=
  ⟨c6_region_errors_and_invariant.1 c6open (0, false) "try @x" "@x" [] rfl rfl,
   c6_region_errors_and_invariant.2.1 asmEmpty rfl,
   c6_region_errors_and_invariant.2.2 ctx312 asmEmpty c6state
     "begin:\ntry @begin\nNOP\ntried" rfl rfl⟩

end DDAsm
